import Mathlib

/-!
Verification development for the mermaid-checker scripts of the
icode-plugin repository.

JavaScript strings are modelled as Lean `String`; the JS built-ins the
scripts use (`String.prototype.trim`, `String.prototype.split('\n')`,
`Array.prototype.join('\n')`) are modelled by the explicit structurally
recursive definitions below, so that every definition is executable and
kernel-reducible.  Durations returned by `performance.now()` are modelled
as natural numbers of abstract time units.
-/

namespace MermaidChecker

/-- Model of the character class recognised by JS `\s` for the inputs at
hand (ASCII whitespace); used by the model of `String.prototype.trim`. -/
def jsWhitespace (c : Char) : Bool :=
  c = ' ' || c = '\t' || c = '\n' || c = '\r' || c = '\x0b' || c = '\x0c'

/-- Model of JS `String.prototype.trim`: drop leading and trailing
whitespace characters. -/
def jsTrim (s : String) : String :=
  String.mk (((s.data.dropWhile jsWhitespace).reverse.dropWhile jsWhitespace).reverse)

/-- Model of JS `String.prototype.split('\n')` at the character-list
level: split a character list at every newline; the separator is dropped
and the empty string appears between adjacent separators, exactly as in
JS (`''.split('\n') === ['']`). -/
def splitNlAux : List Char → List (List Char)
  | [] => [[]]
  | c :: cs =>
    let r := splitNlAux cs
    if c = '\n' then [] :: r else (c :: r.headD []) :: r.tail

/-- Model of JS `content.split('\n')` on strings. -/
def jsSplitLines (s : String) : List String :=
  (splitNlAux s.data).map String.mk

/-- Model of JS `Array.prototype.join('\n')` at the character-list level. -/
def joinNlChars : List (List Char) → List Char
  | [] => []
  | [x] => x
  | x :: y :: t => x ++ '\n' :: joinNlChars (y :: t)

/-- Model of JS `blockContent.join('\n')` on strings. -/
def jsJoinLines (ls : List String) : String :=
  String.mk (joinNlChars (ls.map String.data))

/-- One extracted fenced diagram block, as produced by
`extractMermaidBlocks` in `mermaid-check.mjs` (src/unnamed/part_001) and
`extract.mjs` / `validate.mjs` (identical function): fields `code`,
`lineStart`, `lineEnd`, `index`. -/
structure Block where
  code : String
  lineStart : Nat
  lineEnd : Nat
  index : Nat
deriving DecidableEq

/-- The scanning loop of `extractMermaidBlocks` (src/unnamed/part_001,
lines 111-130).  Arguments mirror the JS loop state: the remaining lines,
the 0-based position `i` of the current line, `inMermaidBlock`,
`blockStart`, `blockContent`, `blockIndex`, and the emitted `blocks`.
The branch order is exactly that of the source: the open-fence test
`line.trim() === '` ++ "```" ++ `mermaid'` is checked first, even while
inside a block. -/
def extGo : List String → Nat → Bool → Nat → List String → Nat → List Block → List Block
  | [], _, _, _, _, _, blocks => blocks
  | line :: rest, i, inMermaidBlock, blockStart, blockContent, blockIndex, blocks =>
    if jsTrim line = "```mermaid" then
      extGo rest (i + 1) true (i + 1) [] blockIndex blocks
    else if inMermaidBlock = true ∧ jsTrim line = "```" then
      extGo rest (i + 1) false blockStart [] (blockIndex + 1)
        (blocks ++ [{ code := jsJoinLines blockContent, lineStart := blockStart,
                      lineEnd := i, index := blockIndex }])
    else if inMermaidBlock = true then
      extGo rest (i + 1) inMermaidBlock blockStart (blockContent ++ [line]) blockIndex blocks
    else
      extGo rest (i + 1) inMermaidBlock blockStart blockContent blockIndex blocks

/-- `extractMermaidBlocks` restricted to an already-split list of lines
(the body of the `for` loop with its initial state). -/
def extractLines (lines : List String) : List Block :=
  extGo lines 0 false 0 [] 0 []

/-- `extractMermaidBlocks(content)` from src/unnamed/part_001 lines
103-133 (the identical function also appears in `extract.mjs` and
`validate.mjs`): split the document on newlines and run the scanner. -/
def extractMermaidBlocks (content : String) : List Block :=
  extractLines (jsSplitLines content)

/-- Model of the JS regex word-character class `\w`: ASCII letters,
digits and underscore. -/
def isWordChar (c : Char) : Bool :=
  c.isAlpha || c.isDigit || c = '_'

/-- The alias table `typeMap` of `detectDiagramType`
(src/unnamed/part_001 lines 145-152; the agents copy in part_000 differs
only in mapping `journey` to "journey-map" instead of "journey map"). -/
def typeMap (t : String) : Option String :=
  if t = "graph" then some "flowchart"
  else if t = "sequenceDiagram" then some "sequence"
  else if t = "classDiagram" then some "class"
  else if t = "stateDiagram" then some "state"
  else if t = "erDiagram" then some "er"
  else if t = "journey" then some "journey map"
  else none

/-- `detectDiagramType(code)` from src/unnamed/part_001 lines 140-156:
`code.match(/^(\w+)/)` takes the maximal run of word characters at the
very start of the string; on a match the alias table is consulted
(`typeMap[type] || type`, and every alias is a non-empty string), on no
match the result is "unknown". -/
def detectDiagramType (code : String) : String :=
  let token := String.mk (code.data.takeWhile isWordChar)
  if token = "" then "unknown"
  else
    match typeMap token with
    | some t => t
    | none => token

/-- The record returned by the `validate` closure of
`setupMermaidValidator` (src/unnamed/part_000 lines 91-108,
src/unnamed/part_001 lines 75-91): `valid`, `executionTime` (called
`elapsedTime` in the spec's data model) and `error` (`null` modelled as
`none`). -/
structure ValidationResult where
  valid : Bool
  executionTime : Nat
  error : Option String
deriving DecidableEq

/-- A JS error value as thrown by the external parser: its `message`
property (possibly empty) and its `name`, with the default
`Error.prototype.toString()` stringification. -/
structure JsError where
  name : String
  message : String
deriving DecidableEq

/-- Default JS `Error.prototype.toString()`: the name, a colon-space and
the message, omitting whichever part is empty. -/
def JsError.str (e : JsError) : String :=
  if e.message = "" then e.name
  else if e.name = "" then e.message
  else e.name ++ ": " ++ e.message

/-- The `validate` closure returned by `setupMermaidValidator`
(src/unnamed/part_001 lines 75-91).  The external black box
`mermaid.parse` is a parameter `parse` (success or a thrown `JsError`),
and the elapsed wall-clock time `elapsed` is an abstract parameter.  On
success the result is `{valid: true, error: null}`; a thrown error is
caught and converted via `error.message || error.toString()` (the JS
`||` takes the stringification when `message` is the empty string). -/
def validate (parse : String → Except JsError Unit) (elapsed : Nat)
    (code : String) : ValidationResult :=
  match parse code with
  | Except.ok _ => { valid := true, executionTime := elapsed, error := none }
  | Except.error e =>
      { valid := false, executionTime := elapsed,
        error := some (if e.message = "" then e.str else e.message) }

/-- One merged record of `results.diagrams` in `validateMarkdownFile`
(src/unnamed/part_001 lines 186-190): the spread of the block, the
detected diagram type and the spread of the validation result. -/
structure DiagramEntry where
  code : String
  lineStart : Nat
  lineEnd : Nat
  index : Nat
  diagramType : String
  valid : Bool
  executionTime : Nat
  error : Option String
deriving DecidableEq

/-- The per-file report built by `validateMarkdownFile`
(src/unnamed/part_001 lines 168-201).  The `filePath`/`fileName` fields,
which no claim mentions, are omitted. -/
structure FileReport where
  totalDiagrams : Nat
  validCount : Nat
  invalidCount : Nat
  diagrams : List DiagramEntry
  totalTime : Nat
deriving DecidableEq

/-- `validateMarkdownFile(filePath, validator)` from
src/unnamed/part_001 lines 168-201, abstracted over the file's text
`content` (the script reads it with `fs.readFileSync`) and the
`validator` function.  The `for` loop over the extracted blocks is the
fold: push the merged record, add the execution time, and bump
exactly one of the two counters. -/
def validateMarkdownFile (content : String)
    (validator : String → ValidationResult) : FileReport :=
  let blocks := extractMermaidBlocks content
  blocks.foldl
    (fun results block =>
      let result := validator block.code
      let diagramType := detectDiagramType block.code
      { results with
          diagrams := results.diagrams ++
            [{ code := block.code, lineStart := block.lineStart,
               lineEnd := block.lineEnd, index := block.index,
               diagramType := diagramType, valid := result.valid,
               executionTime := result.executionTime, error := result.error }],
          totalTime := results.totalTime + result.executionTime,
          validCount := results.validCount + (if result.valid then 1 else 0),
          invalidCount := results.invalidCount + (if result.valid then 0 else 1) })
    { totalDiagrams := blocks.length, validCount := 0, invalidCount := 0,
      diagrams := [], totalTime := 0 }

/-- One merged record of the `blocks` array built by `main` in
`check.mjs` (src/plugins/icode/skills/mermaid-checker/scripts/check.mjs
lines 156-164): the extract-step metadata spread together with the
validation outcome.  The temp-file path fields, which no claim mentions,
are omitted. -/
structure CheckEntry where
  lineStart : Nat
  lineEnd : Nat
  diagramType : String
  index : Nat
  valid : Bool
  executionTime : Nat
  error : Option String
deriving DecidableEq

/-- The aggregate result object built by `main` in `check.mjs`
(lines 175-183): `totalBlocks`, `validCount`, `invalidCount`, `blocks`,
`totalTime` (the `sourceFile`/`outputDir` fields are omitted). -/
structure Report where
  totalBlocks : Nat
  validCount : Nat
  invalidCount : Nat
  blocks : List CheckEntry
  totalTime : Nat
deriving DecidableEq

/-- Step 2 and step 3 of `main` in `check.mjs` (lines 150-183): for each
block of the extract result, in order, obtain the validation result (the
`validate.mjs` subprocess run on the temp file holding exactly
`block.code`; `extract.mjs` computes `diagramType` with
`detectDiagramType(block.code)`), push the merged record and update the
running counters and total time. -/
def checkRun (content : String)
    (validator : String → ValidationResult) : Report :=
  let blocks := extractMermaidBlocks content
  blocks.foldl
    (fun acc block =>
      let vres := validator block.code
      { acc with
          blocks := acc.blocks ++
            [{ lineStart := block.lineStart, lineEnd := block.lineEnd,
               diagramType := detectDiagramType block.code,
               index := block.index, valid := vres.valid,
               executionTime := vres.executionTime, error := vres.error }],
          totalTime := acc.totalTime + vres.executionTime,
          validCount := acc.validCount + (if vres.valid then 1 else 0),
          invalidCount := acc.invalidCount + (if vres.valid then 0 else 1) })
    { totalBlocks := blocks.length, validCount := 0, invalidCount := 0,
      blocks := [], totalTime := 0 }

/-- Observable outcome of one `check.mjs` run: the `process.exit` code,
the number of `validate.mjs` subprocess invocations (each such
invocation performs one validator-environment setup), whether an error
message was printed, whether `cleanup(outputDir)` was attempted, and the
aggregate report when one was built. -/
structure CheckRunResult where
  exitCode : Nat
  validateCalls : Nat
  errorReported : Bool
  cleanupAttempted : Bool
  report : Option Report
deriving DecidableEq

/-- `main()` of `check.mjs` (lines 102-210).  Parameters model the run's
environment: `argsEmpty` (no CLI arguments: usage is printed and the
process exits 1), `fileExists` (`fs.existsSync(mdFile)`; a missing file
prints an error and exits 1), `keepTemp` (`--keep-temp`),
`extractThrows` (the `try` block throwing, e.g. the extract subprocess
failing: the `catch` prints the error, attempts cleanup and exits 1),
`content` (the markdown file's text) and `validator` (the per-block
validation pipeline).  With zero extracted blocks the run prints a note
and exits 0 before any `validateFile` call and before cleanup; otherwise
the report is built, cleanup runs unless `--keep-temp`, and the exit
code is 1 exactly when `invalidCount > 0`. -/
def checkMain (argsEmpty fileExists keepTemp extractThrows : Bool)
    (content : String) (validator : String → ValidationResult) : CheckRunResult :=
  if argsEmpty then
    { exitCode := 1, validateCalls := 0, errorReported := false,
      cleanupAttempted := false, report := none }
  else if fileExists = false then
    { exitCode := 1, validateCalls := 0, errorReported := true,
      cleanupAttempted := false, report := none }
  else if extractThrows then
    { exitCode := 1, validateCalls := 0, errorReported := true,
      cleanupAttempted := true, report := none }
  else
    let blocks := extractMermaidBlocks content
    if blocks.length = 0 then
      { exitCode := 0, validateCalls := 0, errorReported := false,
        cleanupAttempted := false, report := none }
    else
      let report := checkRun content validator
      { exitCode := if report.invalidCount > 0 then 1 else 0,
        validateCalls := blocks.length, errorReported := false,
        cleanupAttempted := !keepTemp, report := some report }

/-- Observable outcome of one `mermaid-check.mjs` run
(src/unnamed/part_001): the exit code, how many times
`setupMermaidValidator` ran, how many per-file "Error processing"
messages were printed, and the per-file reports that were collected. -/
structure MermaidRunResult where
  exitCode : Nat
  setupRuns : Nat
  fileErrorsReported : Nat
  reports : List FileReport
deriving DecidableEq

/-- `main()` of `mermaid-check.mjs` (src/unnamed/part_001 lines
272-336, together with the top-level `main().catch` on lines 338-341).
Parameters: `argsEmpty` (no CLI arguments: usage printed, exit 2),
`setupFails` (`setupMermaidValidator()` throwing; the rejection reaches
`main().catch`, which exits 2), `files` (one entry per path matched by
the glob: `some content` for a file read and processed successfully,
`none` for a file whose processing threw — the per-file `catch` prints
"Error processing ..." and the loop continues), and `validator`.  Note
that the validator is set up before the glob and before any extraction,
that a run matching no files exits 2, and that the final exit code
tests `invalidCount > 0` only over the successfully processed files. -/
def mermaidCheckMain (argsEmpty setupFails : Bool)
    (files : List (Option String))
    (validator : String → ValidationResult) : MermaidRunResult :=
  if argsEmpty then
    { exitCode := 2, setupRuns := 0, fileErrorsReported := 0, reports := [] }
  else if setupFails then
    { exitCode := 2, setupRuns := 1, fileErrorsReported := 0, reports := [] }
  else if files.length = 0 then
    { exitCode := 2, setupRuns := 1, fileErrorsReported := 0, reports := [] }
  else
    let reports := files.filterMap
      (fun f => f.map (fun content => validateMarkdownFile content validator))
    let errors := (files.filter (fun f => f.isNone)).length
    { exitCode := if reports.any (fun r => r.invalidCount > 0) then 1 else 0,
      setupRuns := 1, fileErrorsReported := errors, reports := reports }

/-- A well-formed document segment for stating the extraction theorems:
`pre` is a run of lines outside any block (none of them an open fence)
followed by one complete fenced block with content `content` (none of
its lines a fence marker). -/
structure Seg where
  pre : List String
  content : List String

/-- The lines a segment contributes to the document. -/
def renderSeg (s : Seg) : List String :=
  s.pre ++ "```mermaid" :: s.content ++ ["```"]

/-- A document made of well-formed segments followed by trailing
outside lines. -/
def docLines (segs : List Seg) (post : List String) : List String :=
  (segs.map renderSeg).flatten ++ post

/-- Number of lines a segment contributes. -/
def segLen (s : Seg) : Nat :=
  s.pre.length + s.content.length + 2

/-- The blocks the scanner is expected to emit for well-formed segments,
starting at line position `pos` (0-based) with next block index `idx`:
for each segment the open fence sits at 0-based position
`pos + pre.length`, so the emitted `lineStart` is the 0-based position
of the first content line (equivalently the 1-based number of the open
fence line) and `lineEnd` is the 0-based position of the closing fence
line. -/
def expectedBlocks : List Seg → Nat → Nat → List Block
  | [], _, _ => []
  | s :: rest, pos, idx =>
    { code := jsJoinLines s.content,
      lineStart := pos + s.pre.length + 1,
      lineEnd := pos + s.pre.length + 1 + s.content.length,
      index := idx } :: expectedBlocks rest (pos + segLen s) (idx + 1)

/-- A line that may appear outside a block without opening one. -/
def OutsideLine (l : String) : Prop := jsTrim l ≠ "```mermaid"

/-- A line that may appear inside a block as ordinary content. -/
def ContentLine (l : String) : Prop :=
  jsTrim l ≠ "```mermaid" ∧ jsTrim l ≠ "```"

/-- Well-formedness of one segment. -/
def SegOk (s : Seg) : Prop :=
  (∀ l ∈ s.pre, OutsideLine l) ∧ (∀ l ∈ s.content, ContentLine l)

/-- Counts the open-fence marker lines of a document. -/
def openMarkerCount (lines : List String) : Nat :=
  lines.countP (fun l => jsTrim l = "```mermaid")

instance (l : String) : Decidable (OutsideLine l) :=
  inferInstanceAs (Decidable (jsTrim l ≠ "```mermaid"))

instance (l : String) : Decidable (ContentLine l) :=
  inferInstanceAs (Decidable (jsTrim l ≠ "```mermaid" ∧ jsTrim l ≠ "```"))

instance (s : Seg) : Decidable (SegOk s) :=
  inferInstanceAs
    (Decidable ((∀ l ∈ s.pre, OutsideLine l) ∧ (∀ l ∈ s.content, ContentLine l)))

/-- The merged record `validateMarkdownFile` pushes for one block (used
to state what the loop produces). -/
def vmfEntry (v : String → ValidationResult) (b : Block) : DiagramEntry :=
  { code := b.code, lineStart := b.lineStart, lineEnd := b.lineEnd,
    index := b.index, diagramType := detectDiagramType b.code,
    valid := (v b.code).valid, executionTime := (v b.code).executionTime,
    error := (v b.code).error }

/-- The merged record the `check.mjs` loop pushes for one block (used to
state what the loop produces). -/
def checkEntryOf (v : String → ValidationResult) (b : Block) : CheckEntry :=
  { lineStart := b.lineStart, lineEnd := b.lineEnd,
    diagramType := detectDiagramType b.code, index := b.index,
    valid := (v b.code).valid, executionTime := (v b.code).executionTime,
    error := (v b.code).error }

theorem splitNlAux_ne_nil (cs : List Char) : splitNlAux cs ≠ [] := by
  cases cs with
  | nil => simp [splitNlAux]
  | cons c cs =>
    simp only [splitNlAux]
    by_cases hc : c = '\n' <;> simp [hc]

theorem splitNlAux_cons (c : Char) (cs : List Char) :
    splitNlAux (c :: cs) =
      if c = '\n' then [] :: splitNlAux cs
      else (c :: (splitNlAux cs).headD []) :: (splitNlAux cs).tail := rfl

theorem splitNlAux_no_nl {cs l : List Char} (h : l ∈ splitNlAux cs) : '\n' ∉ l := by
  induction cs generalizing l with
  | nil =>
    simp only [splitNlAux, List.mem_singleton] at h
    simp [h]
  | cons c cs ih =>
    obtain ⟨hd, tl, hs⟩ : ∃ hd tl, splitNlAux cs = hd :: tl := by
      cases hx : splitNlAux cs with
      | nil => exact absurd hx (splitNlAux_ne_nil cs)
      | cons hd tl => exact ⟨hd, tl, rfl⟩
    have hhd : '\n' ∉ hd := ih (hs ▸ List.mem_cons_self hd tl)
    rw [splitNlAux_cons, hs] at h
    by_cases hc : c = '\n'
    · rw [if_pos hc] at h
      simp only [List.mem_cons] at h
      rcases h with h | h | h
      · simp [h]
      · exact h ▸ hhd
      · exact ih (hs ▸ List.mem_cons_of_mem hd h)
    · rw [if_neg hc] at h
      simp only [List.headD_cons, List.tail_cons, List.mem_cons] at h
      rcases h with h | h
      · subst h
        intro hmem
        rcases List.mem_cons.mp hmem with h | h
        · exact hc h.symm
        · exact hhd h
      · exact ih (hs ▸ List.mem_cons_of_mem hd h)

theorem splitNlAux_append (a b : List Char) :
    splitNlAux (a ++ '\n' :: b) = splitNlAux a ++ splitNlAux b := by
  induction a with
  | nil =>
    simp [splitNlAux]
  | cons c a ih =>
    obtain ⟨hd, tl, hs⟩ : ∃ hd tl, splitNlAux a = hd :: tl := by
      cases hx : splitNlAux a with
      | nil => exact absurd hx (splitNlAux_ne_nil a)
      | cons hd tl => exact ⟨hd, tl, rfl⟩
    rw [List.cons_append, splitNlAux_cons, splitNlAux_cons, ih, hs]
    by_cases hc : c = '\n' <;> simp [hc]

theorem splitNlAux_of_no_nl {cs : List Char} (h : ∀ c ∈ cs, c ≠ '\n') :
    splitNlAux cs = [cs] := by
  induction cs with
  | nil => rfl
  | cons c cs ih =>
    have hc : c ≠ '\n' := h c (List.mem_cons_self c cs)
    rw [splitNlAux_cons, ih (fun x hx => h x (List.mem_cons_of_mem c hx)), if_neg hc]
    simp

theorem joinNlChars_splitNlAux (cs : List Char) :
    joinNlChars (splitNlAux cs) = cs := by
  induction cs with
  | nil => rfl
  | cons c cs ih =>
    obtain ⟨hd, tl, hs⟩ : ∃ hd tl, splitNlAux cs = hd :: tl := by
      cases hx : splitNlAux cs with
      | nil => exact absurd hx (splitNlAux_ne_nil cs)
      | cons hd tl => exact ⟨hd, tl, rfl⟩
    rw [hs] at ih
    rw [splitNlAux_cons, hs]
    by_cases hc : c = '\n'
    · rw [if_pos hc, hc]
      rw [show joinNlChars ([] :: hd :: tl) = [] ++ '\n' :: joinNlChars (hd :: tl) from rfl]
      rw [ih]
      rfl
    · rw [if_neg hc]
      simp only [List.headD_cons, List.tail_cons]
      cases tl with
      | nil =>
        simp only [joinNlChars] at ih ⊢
        rw [ih]
      | cons x t =>
        rw [show joinNlChars ((c :: hd) :: x :: t) = (c :: hd) ++ '\n' :: joinNlChars (x :: t) from rfl]
        simp only [joinNlChars] at ih
        rw [List.cons_append, ih]

theorem splitNlAux_joinNlChars (ls : List (List Char)) (h0 : ls ≠ [])
    (h : ∀ l ∈ ls, '\n' ∉ l) : splitNlAux (joinNlChars ls) = ls := by
  induction ls with
  | nil => exact absurd rfl h0
  | cons x ls ih =>
    cases ls with
    | nil =>
      rw [show joinNlChars [x] = x from rfl]
      exact splitNlAux_of_no_nl
        (fun c hc he => (h x (List.mem_cons_self x [])) (he ▸ hc))
    | cons y t =>
      have hx : '\n' ∉ x := h x (List.mem_cons_self x (y :: t))
      rw [show joinNlChars (x :: y :: t) = x ++ '\n' :: joinNlChars (y :: t) from rfl]
      rw [splitNlAux_append,
        splitNlAux_of_no_nl (fun c hc he => hx (he ▸ hc)),
        ih (by simp) (fun l hl => h l (List.mem_cons_of_mem x hl))]
      rfl

theorem string_mk_data (s : String) : String.mk s.data = s := by
  cases s
  rfl

theorem jsJoinLines_jsSplitLines (s : String) : jsJoinLines (jsSplitLines s) = s := by
  simp only [jsJoinLines, jsSplitLines, List.map_map]
  have : (String.data ∘ String.mk) = id := by
    funext l
    rfl
  rw [this, List.map_id, joinNlChars_splitNlAux, string_mk_data]

theorem jsSplitLines_no_nl {s : String} {l : String} (h : l ∈ jsSplitLines s) :
    '\n' ∉ l.data := by
  simp only [jsSplitLines, List.mem_map] at h
  obtain ⟨cs, hcs, rfl⟩ := h
  exact splitNlAux_no_nl hcs

theorem jsSplitLines_jsJoinLines (ls : List String) (h0 : ls ≠ [])
    (h : ∀ l ∈ ls, '\n' ∉ l.data) : jsSplitLines (jsJoinLines ls) = ls := by
  simp only [jsSplitLines, jsJoinLines]
  rw [splitNlAux_joinNlChars (ls.map String.data)
    (by simpa using h0)
    (by
      intro l hl
      rcases List.mem_map.mp hl with ⟨x, hx, rfl⟩
      exact h x hx)]
  rw [List.map_map]
  have : (String.mk ∘ String.data) = id := by
    funext x
    exact string_mk_data x
  rw [this, List.map_id]

theorem jsTrim_open : jsTrim "```mermaid" = "```mermaid" := by decide

theorem jsTrim_close : jsTrim "```" = "```" := by decide

theorem extGo_nil (i : Nat) (inB : Bool) (bs : Nat) (bc : List String)
    (idx : Nat) (acc : List Block) : extGo [] i inB bs bc idx acc = acc := rfl

theorem extGo_cons (line : String) (rest : List String) (i : Nat) (inB : Bool)
    (bs : Nat) (bc : List String) (idx : Nat) (acc : List Block) :
    extGo (line :: rest) i inB bs bc idx acc =
      if jsTrim line = "```mermaid" then
        extGo rest (i + 1) true (i + 1) [] idx acc
      else if inB = true ∧ jsTrim line = "```" then
        extGo rest (i + 1) false bs [] (idx + 1)
          (acc ++ [{ code := jsJoinLines bc, lineStart := bs,
                     lineEnd := i, index := idx }])
      else if inB = true then
        extGo rest (i + 1) inB bs (bc ++ [line]) idx acc
      else
        extGo rest (i + 1) inB bs bc idx acc := rfl

theorem extGo_outside (ls : List String) (h : ∀ l ∈ ls, OutsideLine l) :
    ∀ (rest : List String) (i bs : Nat) (bc : List String) (idx : Nat)
      (acc : List Block),
      extGo (ls ++ rest) i false bs bc idx acc
        = extGo rest (i + ls.length) false bs bc idx acc := by
  induction ls with
  | nil =>
    intro rest i bs bc idx acc
    simp
  | cons l ls ih =>
    intro rest i bs bc idx acc
    have hl : jsTrim l ≠ "```mermaid" := h l (List.mem_cons_self l ls)
    rw [List.cons_append, extGo_cons, if_neg hl,
      if_neg (fun hh => Bool.false_ne_true hh.1), if_neg Bool.false_ne_true,
      ih (fun x hx => h x (List.mem_cons_of_mem l hx))]
    have e : i + 1 + ls.length = i + (l :: ls).length := by
      simp [List.length_cons]
      omega
    rw [e]

theorem extGo_inblock (cs : List String) (h : ∀ l ∈ cs, ContentLine l) :
    ∀ (rest : List String) (i bs : Nat) (bc : List String) (idx : Nat)
      (acc : List Block),
      extGo (cs ++ rest) i true bs bc idx acc
        = extGo rest (i + cs.length) true bs (bc ++ cs) idx acc := by
  induction cs with
  | nil =>
    intro rest i bs bc idx acc
    simp
  | cons l ls ih =>
    intro rest i bs bc idx acc
    obtain ⟨h1, h2⟩ := h l (List.mem_cons_self l ls)
    rw [List.cons_append, extGo_cons, if_neg h1, if_neg (fun hh => h2 hh.2),
      if_pos rfl, ih (fun x hx => h x (List.mem_cons_of_mem l hx))]
    have e1 : i + 1 + ls.length = i + (l :: ls).length := by
      simp [List.length_cons]
      omega
    have e2 : (bc ++ [l]) ++ ls = bc ++ l :: ls := by
      simp
    rw [e1, e2]

theorem extGo_open_drop (cs : List String) (h : ∀ l ∈ cs, jsTrim l ≠ "```") :
    ∀ (i bs : Nat) (bc : List String) (idx : Nat) (acc : List Block),
      extGo cs i true bs bc idx acc = acc := by
  induction cs with
  | nil =>
    intro i bs bc idx acc
    rfl
  | cons l ls ih =>
    intro i bs bc idx acc
    have hc : jsTrim l ≠ "```" := h l (List.mem_cons_self l ls)
    have hrest : ∀ x ∈ ls, jsTrim x ≠ "```" :=
      fun x hx => h x (List.mem_cons_of_mem l hx)
    rw [extGo_cons]
    by_cases ho : jsTrim l = "```mermaid"
    · rw [if_pos ho]
      exact ih hrest (i + 1) (i + 1) [] idx acc
    · rw [if_neg ho, if_neg (fun hh => hc hh.2), if_pos rfl]
      exact ih hrest (i + 1) bs (bc ++ [l]) idx acc

theorem extGo_block (cs : List String) (h : ∀ l ∈ cs, ContentLine l)
    (rest : List String) (i : Nat) (inB : Bool) (bs : Nat) (bc : List String)
    (idx : Nat) (acc : List Block) :
    extGo ("```mermaid" :: (cs ++ "```" :: rest)) i inB bs bc idx acc
      = extGo rest (i + cs.length + 2) false (i + 1) [] (idx + 1)
          (acc ++ [{ code := jsJoinLines cs, lineStart := i + 1,
                     lineEnd := i + 1 + cs.length, index := idx }]) := by
  rw [extGo_cons "```mermaid" (cs ++ "```" :: rest), if_pos jsTrim_open,
    extGo_inblock cs h, List.nil_append,
    extGo_cons "```" rest, if_neg (by decide), if_pos ⟨rfl, jsTrim_close⟩]
  have e : i + 1 + cs.length + 1 = i + cs.length + 2 := by omega
  rw [e]

theorem extGo_docLines_aux (post : List String)
    (hfin : ∀ (i bs : Nat) (bc : List String) (idx : Nat) (acc : List Block),
      extGo post i false bs bc idx acc = acc)
    (segs : List Seg) (hsegs : ∀ s ∈ segs, SegOk s) :
    ∀ (i idx bs : Nat) (bc : List String) (acc : List Block),
      extGo (docLines segs post) i false bs bc idx acc
        = acc ++ expectedBlocks segs i idx := by
  induction segs with
  | nil =>
    intro i idx bs bc acc
    simp only [docLines, List.map_nil, List.flatten_nil, List.nil_append,
      expectedBlocks, List.append_nil]
    exact hfin i bs bc idx acc
  | cons s rest ih =>
    intro i idx bs bc acc
    obtain ⟨hpre, hcontent⟩ := hsegs s (List.mem_cons_self s rest)
    have hdoc : docLines (s :: rest) post
        = s.pre ++ ("```mermaid" :: (s.content ++ "```" :: docLines rest post)) := by
      simp [docLines, renderSeg]
    rw [hdoc, extGo_outside s.pre hpre, extGo_block s.content hcontent,
      ih (fun x hx => hsegs x (List.mem_cons_of_mem s hx))]
    have e : i + s.pre.length + s.content.length + 2 = i + segLen s := by
      simp [segLen]
      omega
    rw [e]
    simp [expectedBlocks]

theorem extractLines_docLines (segs : List Seg) (post : List String)
    (hsegs : ∀ s ∈ segs, SegOk s) (hpost : ∀ l ∈ post, OutsideLine l) :
    extractLines (docLines segs post) = expectedBlocks segs 0 0 := by
  have hfin : ∀ (i bs : Nat) (bc : List String) (idx : Nat) (acc : List Block),
      extGo post i false bs bc idx acc = acc := by
    intro i bs bc idx acc
    have := extGo_outside post hpost [] i bs bc idx acc
    rw [List.append_nil] at this
    rw [this, extGo_nil]
  have := extGo_docLines_aux post hfin segs hsegs 0 0 0 [] []
  rw [List.nil_append] at this
  exact this

theorem extractLines_docLines_unterminated (segs : List Seg)
    (tail : List String) (hsegs : ∀ s ∈ segs, SegOk s)
    (htail : ∀ l ∈ tail, jsTrim l ≠ "```") :
    extractLines (docLines segs ("```mermaid" :: tail)) = expectedBlocks segs 0 0 := by
  have hfin : ∀ (i bs : Nat) (bc : List String) (idx : Nat) (acc : List Block),
      extGo ("```mermaid" :: tail) i false bs bc idx acc = acc := by
    intro i bs bc idx acc
    rw [extGo_cons, if_pos jsTrim_open]
    exact extGo_open_drop tail htail (i + 1) (i + 1) [] idx acc
  have := extGo_docLines_aux ("```mermaid" :: tail) hfin segs hsegs 0 0 0 [] []
  rw [List.nil_append] at this
  exact this

theorem extGo_map_index (lines : List String) :
    ∀ (i : Nat) (inB : Bool) (bs : Nat) (bc : List String) (idx : Nat)
      (acc : List Block), acc.map Block.index = List.range idx →
      (extGo lines i inB bs bc idx acc).map Block.index
        = List.range (extGo lines i inB bs bc idx acc).length := by
  induction lines with
  | nil =>
    intro i inB bs bc idx acc h
    rw [extGo_nil]
    have hlen : acc.length = idx := by
      have := congrArg List.length h
      simpa using this
    rw [h, hlen]
  | cons l rest ih =>
    intro i inB bs bc idx acc h
    rw [extGo_cons]
    by_cases h1 : jsTrim l = "```mermaid"
    · rw [if_pos h1]
      exact ih _ _ _ _ _ _ h
    · rw [if_neg h1]
      by_cases h2 : inB = true ∧ jsTrim l = "```"
      · rw [if_pos h2]
        apply ih
        rw [List.map_append, h]
        simp [List.range_succ]
      · rw [if_neg h2]
        by_cases h3 : inB = true
        · rw [if_pos h3]
          exact ih _ _ _ _ _ _ h
        · rw [if_neg h3]
          exact ih _ _ _ _ _ _ h

theorem extractLines_map_index (lines : List String) :
    (extractLines lines).map Block.index
      = List.range (extractLines lines).length :=
  extGo_map_index lines 0 false 0 [] 0 [] (by simp)

theorem extractMermaidBlocks_map_index (content : String) :
    (extractMermaidBlocks content).map Block.index
      = List.range (extractMermaidBlocks content).length :=
  extractLines_map_index (jsSplitLines content)

theorem extGo_le (lines : List String) :
    ∀ (i : Nat) (inB : Bool) (bs : Nat) (bc : List String) (idx : Nat)
      (acc : List Block), (inB = true → bs ≤ i) →
      (∀ b ∈ acc, b.lineStart ≤ b.lineEnd) →
      ∀ b ∈ extGo lines i inB bs bc idx acc, b.lineStart ≤ b.lineEnd := by
  induction lines with
  | nil =>
    intro i inB bs bc idx acc _ hacc
    rw [extGo_nil]
    exact hacc
  | cons l rest ih =>
    intro i inB bs bc idx acc hbs hacc
    rw [extGo_cons]
    by_cases h1 : jsTrim l = "```mermaid"
    · rw [if_pos h1]
      exact ih _ _ _ _ _ _ (fun _ => Nat.le_refl _) hacc
    · rw [if_neg h1]
      by_cases h2 : inB = true ∧ jsTrim l = "```"
      · rw [if_pos h2]
        apply ih _ _ _ _ _ _ (fun hh => absurd hh Bool.false_ne_true)
        intro b hb
        rcases List.mem_append.mp hb with hb | hb
        · exact hacc b hb
        · rcases List.mem_singleton.mp hb with rfl
          exact hbs h2.1
      · rw [if_neg h2]
        by_cases h3 : inB = true
        · rw [if_pos h3]
          exact ih _ _ _ _ _ _
            (fun hh => Nat.le_trans (hbs hh) (Nat.le_succ i)) hacc
        · rw [if_neg h3]
          exact ih _ _ _ _ _ _
            (fun hh => Nat.le_trans (hbs hh) (Nat.le_succ i)) hacc

theorem extractMermaidBlocks_le (content : String) :
    ∀ b ∈ extractMermaidBlocks content, b.lineStart ≤ b.lineEnd :=
  extGo_le (jsSplitLines content) 0 false 0 [] 0 []
    (fun h => absurd h Bool.false_ne_true) (by simp)

theorem countP_not_add (p : Block → Bool) (l : List Block) :
    l.countP p + l.countP (fun x => !(p x)) = l.length := by
  induction l with
  | nil => rfl
  | cons a l ih =>
    simp only [List.countP_cons]
    by_cases h : p a <;> simp [h] <;> omega

theorem vmf_fold (v : String → ValidationResult)
    (f : FileReport → Block → FileReport)
    (hf : ∀ r b, f r b =
      { totalDiagrams := r.totalDiagrams,
        validCount := r.validCount + (if (v b.code).valid then 1 else 0),
        invalidCount := r.invalidCount + (if (v b.code).valid then 0 else 1),
        diagrams := r.diagrams ++ [vmfEntry v b],
        totalTime := r.totalTime + (v b.code).executionTime }) :
    ∀ (bs : List Block) (r : FileReport),
      bs.foldl f r =
        { totalDiagrams := r.totalDiagrams,
          validCount := r.validCount + bs.countP (fun b => (v b.code).valid),
          invalidCount := r.invalidCount + bs.countP (fun b => !(v b.code).valid),
          diagrams := r.diagrams ++ bs.map (vmfEntry v),
          totalTime := r.totalTime + (bs.map (fun b => (v b.code).executionTime)).sum } := by
  intro bs
  induction bs with
  | nil =>
    intro r
    simp
  | cons b bs ih =>
    intro r
    rw [List.foldl_cons, hf, ih]
    by_cases hb : (v b.code).valid <;>
      simp [hb, List.countP_cons, FileReport.mk.injEq] <;> omega

theorem check_fold (v : String → ValidationResult)
    (f : Report → Block → Report)
    (hf : ∀ r b, f r b =
      { totalBlocks := r.totalBlocks,
        validCount := r.validCount + (if (v b.code).valid then 1 else 0),
        invalidCount := r.invalidCount + (if (v b.code).valid then 0 else 1),
        blocks := r.blocks ++ [checkEntryOf v b],
        totalTime := r.totalTime + (v b.code).executionTime }) :
    ∀ (bs : List Block) (r : Report),
      bs.foldl f r =
        { totalBlocks := r.totalBlocks,
          validCount := r.validCount + bs.countP (fun b => (v b.code).valid),
          invalidCount := r.invalidCount + bs.countP (fun b => !(v b.code).valid),
          blocks := r.blocks ++ bs.map (checkEntryOf v),
          totalTime := r.totalTime + (bs.map (fun b => (v b.code).executionTime)).sum } := by
  intro bs
  induction bs with
  | nil =>
    intro r
    simp
  | cons b bs ih =>
    intro r
    rw [List.foldl_cons, hf, ih]
    by_cases hb : (v b.code).valid <;>
      simp [hb, List.countP_cons, Report.mk.injEq] <;> omega

theorem validateMarkdownFile_spec (content : String)
    (v : String → ValidationResult) :
    validateMarkdownFile content v =
      { totalDiagrams := (extractMermaidBlocks content).length,
        validCount := (extractMermaidBlocks content).countP
          (fun b => (v b.code).valid),
        invalidCount := (extractMermaidBlocks content).countP
          (fun b => !(v b.code).valid),
        diagrams := (extractMermaidBlocks content).map (vmfEntry v),
        totalTime := ((extractMermaidBlocks content).map
          (fun b => (v b.code).executionTime)).sum } := by
  rw [validateMarkdownFile]
  refine (vmf_fold v _ ?_ (extractMermaidBlocks content) _).trans ?_
  · intro r b
    rfl
  · simp

theorem checkRun_spec (content : String) (v : String → ValidationResult) :
    checkRun content v =
      { totalBlocks := (extractMermaidBlocks content).length,
        validCount := (extractMermaidBlocks content).countP
          (fun b => (v b.code).valid),
        invalidCount := (extractMermaidBlocks content).countP
          (fun b => !(v b.code).valid),
        blocks := (extractMermaidBlocks content).map (checkEntryOf v),
        totalTime := ((extractMermaidBlocks content).map
          (fun b => (v b.code).executionTime)).sum } := by
  rw [checkRun]
  refine (check_fold v _ ?_ (extractMermaidBlocks content) _).trans ?_
  · intro r b
    rfl
  · simp

theorem expectedBlocks_length (segs : List Seg) :
    ∀ pos idx, (expectedBlocks segs pos idx).length = segs.length := by
  induction segs with
  | nil =>
    intro pos idx
    rfl
  | cons s rest ih =>
    intro pos idx
    simp [expectedBlocks, ih]

theorem openMarkerCount_zero (ls : List String)
    (h : ∀ l ∈ ls, jsTrim l ≠ "```mermaid") : openMarkerCount ls = 0 := by
  unfold openMarkerCount
  rw [List.countP_eq_zero]
  intro l hl
  simpa using h l hl

theorem openMarkerCount_docLines (segs : List Seg) (post : List String)
    (hsegs : ∀ s ∈ segs, SegOk s) :
    openMarkerCount (docLines segs post)
      = segs.length + openMarkerCount post := by
  induction segs with
  | nil =>
    simp [docLines, openMarkerCount]
  | cons s rest ih =>
    obtain ⟨hpre, hcontent⟩ := hsegs s (List.mem_cons_self s rest)
    have hdoc : docLines (s :: rest) post = renderSeg s ++ docLines rest post := by
      simp [docLines]
    have hz1 := openMarkerCount_zero s.pre hpre
    have hz2 := openMarkerCount_zero s.content (fun l hl => (hcontent l hl).1)
    have hseg : openMarkerCount (renderSeg s) = 1 := by
      unfold renderSeg
      unfold openMarkerCount at hz1 hz2 ⊢
      rw [List.countP_append, List.countP_append, List.countP_cons, hz1, hz2]
      simp [jsTrim_open, List.countP_cons, List.countP_nil,
        show jsTrim "```" ≠ "```mermaid" from by decide]
    rw [hdoc]
    have hih := ih (fun x hx => hsegs x (List.mem_cons_of_mem s hx))
    unfold openMarkerCount at hseg hih ⊢
    rw [List.countP_append, hseg, hih]
    simp [List.length_cons]
    omega

/-- C8: for every report produced by the orchestration layer — both the
per-file report of `validateMarkdownFile` in `mermaid-check.mjs` and the
aggregate result of the per-block loop of `check.mjs` —
`validCount + invalidCount = totalBlocks`, `totalTime` is the sum of the
per-block execution times, and the merged block records appear in
extraction order (their `index` fields are exactly `0, 1, ...` in
order). -/
theorem C8_report_invariants (content : String)
    (v : String → ValidationResult) :
    ((validateMarkdownFile content v).validCount
        + (validateMarkdownFile content v).invalidCount
      = (validateMarkdownFile content v).totalDiagrams)
    ∧ (validateMarkdownFile content v).totalTime
        = ((validateMarkdownFile content v).diagrams.map
            (fun e => e.executionTime)).sum
    ∧ (validateMarkdownFile content v).diagrams.map (fun e => e.index)
        = List.range (validateMarkdownFile content v).totalDiagrams
    ∧ ((checkRun content v).validCount + (checkRun content v).invalidCount
        = (checkRun content v).totalBlocks)
    ∧ (checkRun content v).totalTime
        = ((checkRun content v).blocks.map (fun e => e.executionTime)).sum
    ∧ (checkRun content v).blocks.map (fun e => e.index)
        = List.range (checkRun content v).totalBlocks := by
  rw [validateMarkdownFile_spec, checkRun_spec]
  refine ⟨countP_not_add _ _, ?_, ?_, countP_not_add _ _, ?_, ?_⟩
  · rw [List.map_map]
    rfl
  · have h1 : (List.map (vmfEntry v) (extractMermaidBlocks content)).map
        (fun e => e.index) = (extractMermaidBlocks content).map Block.index := by
      rw [List.map_map]
      rfl
    simpa [h1] using extractMermaidBlocks_map_index content
  · rw [List.map_map]
    rfl
  · have h1 : (List.map (checkEntryOf v) (extractMermaidBlocks content)).map
        (fun e => e.index) = (extractMermaidBlocks content).map Block.index := by
      rw [List.map_map]
      rfl
    simpa [h1] using extractMermaidBlocks_map_index content

/-- C4: for every code string the `validate` closure returns a
ValidationResult and never propagates the parser's exception (in the
model, `validate` is a total function): on parser success it returns
`valid = true` with `error = null`, on a thrown error it returns
`valid = false` with `error` set to the failure's message text, falling
back to its string form when the message is empty; and exactly one of
(`valid = true`, `error = null`) or (`valid = false`, `error` non-empty)
holds.  The one modelling hypothesis is that every value the black-box
parser throws stringifies non-trivially (any real JS `Error` has the
non-empty default `name` "Error"). -/
theorem C4_validate_result_invariant (parse : String → Except JsError Unit)
    (elapsed : Nat) (code : String)
    (hname : ∀ e, parse code = Except.error e → e.name ≠ "" ∨ e.message ≠ "") :
    (parse code = Except.ok () →
      validate parse elapsed code
        = { valid := true, executionTime := elapsed, error := none })
    ∧ (∀ e, parse code = Except.error e →
        validate parse elapsed code
          = { valid := false, executionTime := elapsed,
              error := some (if e.message = "" then e.str else e.message) })
    ∧ (((validate parse elapsed code).valid = true
          ∧ (validate parse elapsed code).error = none)
        ∨ ((validate parse elapsed code).valid = false
            ∧ ∃ s, (validate parse elapsed code).error = some s ∧ s ≠ "")) := by
  unfold validate
  cases hp : parse code with
  | ok u =>
    cases u
    refine ⟨fun _ => rfl, ?_, Or.inl ⟨rfl, rfl⟩⟩
    intro e he
    exact absurd he (by simp)
  | error e =>
    refine ⟨?_, ?_, ?_⟩
    · intro he
      exact absurd he (by simp)
    · intro e' he
      cases he
      rfl
    · refine Or.inr ⟨rfl, if e.message = "" then e.str else e.message, rfl, ?_⟩
      by_cases hm : e.message = ""
      · rw [if_pos hm]
        unfold JsError.str
        rw [if_pos hm]
        rcases hname e hp with hn | hn
        · exact hn
        · exact absurd hm hn
      · rw [if_neg hm]
        exact hm

/-- Witness for C4 at a concrete parser and code string. -/
theorem C4_witness :
    (((validate
          (fun c => if c = "graph TD" then Except.ok ()
                    else Except.error { name := "Error", message := "Parse error" })
          5 "sequence??").valid = true
        ∧ (validate
            (fun c => if c = "graph TD" then Except.ok ()
                      else Except.error { name := "Error", message := "Parse error" })
            5 "sequence??").error = none)
      ∨ ((validate
            (fun c => if c = "graph TD" then Except.ok ()
                      else Except.error { name := "Error", message := "Parse error" })
            5 "sequence??").valid = false
          ∧ ∃ s, (validate
              (fun c => if c = "graph TD" then Except.ok ()
                        else Except.error { name := "Error", message := "Parse error" })
              5 "sequence??").error = some s ∧ s ≠ "")) :=
  (C4_validate_result_invariant
    (fun c => if c = "graph TD" then Except.ok ()
              else Except.error { name := "Error", message := "Parse error" })
    5 "sequence??"
    (by
      intro e he
      simp only [if_neg (by decide : ¬("sequence??" : String) = "graph TD")] at he
      cases he
      exact Or.inl (by decide))).2.2

/-- C2 counterexample: inside an open block, a line whose trimmed
content is the open-fence marker is NOT treated as ordinary content (the
claim predicts one block with code "A\n" ++ open marker ++ "\nB" and
lineStart 1): the open-fence branch runs first and resets the
accumulator and start position, so the extractor emits code "B" with
lineStart 3 instead. -/
theorem C2_counterexample :
    ((extractMermaidBlocks "```mermaid\nA\n```mermaid\nB\n```").map Block.code
        = ["B"])
    ∧ ((extractMermaidBlocks "```mermaid\nA\n```mermaid\nB\n```").map Block.code
        ≠ ["A\n```mermaid\nB"])
    ∧ ((extractMermaidBlocks "```mermaid\nA\n```mermaid\nB\n```").map Block.lineStart
        = [3]) := by
  decide

/-- C2 amended: while inside an open block, every line whose trimmed
content is neither the close marker nor the open marker is appended
verbatim to the accumulator; but a line whose trimmed content is exactly
the open marker does not become content — it resets the accumulated
content to empty and the recorded start position to the following line
(it does not close the block).  Stated on a document
open, c1-lines, open, c2-lines, close: the single emitted block carries
only the c2 content and starts after the second open marker. -/
theorem C2_amended_reopen_resets (c1 c2 : List String)
    (h1 : ∀ l ∈ c1, ContentLine l) (h2 : ∀ l ∈ c2, ContentLine l) :
    extractLines ("```mermaid" :: (c1 ++ "```mermaid" :: (c2 ++ ["```"])))
      = [{ code := jsJoinLines c2, lineStart := c1.length + 2,
           lineEnd := c1.length + c2.length + 2, index := 0 }] := by
  unfold extractLines
  rw [extGo_cons "```mermaid" (c1 ++ "```mermaid" :: (c2 ++ ["```"])),
    if_pos jsTrim_open, extGo_inblock c1 h1, extGo_block c2 h2, extGo_nil]
  simp only [List.nil_append]
  have e1 : 1 + c1.length + 1 = c1.length + 2 := by omega
  rw [e1]
  have e2 : c1.length + 2 + c2.length = c1.length + c2.length + 2 := by omega
  rw [e2]

/-- Witness for C2's amended statement at concrete content lines. -/
theorem C2_amended_witness :
    extractLines ["```mermaid", "A", "```mermaid", "B", "```"]
      = [{ code := "B", lineStart := 3, lineEnd := 4, index := 0 }] :=
  (C2_amended_reopen_resets ["A"] ["B"] (by decide) (by decide)).trans (by decide)

/-- C3 counterexample: on the three-line document open-fence, "A",
close-fence, the first content line "A" is source line 2 (1-based) and
the closing fence is source line 3, so the claim predicts
(lineStart, lineEnd) = (2, 3); the extractor produces (1, 2). -/
theorem C3_counterexample :
    (((extractMermaidBlocks "```mermaid\nA\n```").map
        (fun b => (b.lineStart, b.lineEnd))) = [(1, 2)])
    ∧ (((extractMermaidBlocks "```mermaid\nA\n```").map
        (fun b => (b.lineStart, b.lineEnd))) ≠ [(2, 3)]) := by
  decide

/-- C3 amended: for every extracted block `lineStart ≤ lineEnd`; and for
every well-formed document the emitted positions are those recorded in
`expectedBlocks`: `lineStart` is the 0-based index of the first content
line — equivalently the 1-based number of the opening fence line, one
less than the claimed 1-based number of the first content line — and
`lineEnd` is the 0-based index of the closing fence line, one less than
its 1-based number. -/
theorem C3_amended_line_numbers (content : String) (segs : List Seg)
    (post : List String) (hsegs : ∀ s ∈ segs, SegOk s)
    (hpost : ∀ l ∈ post, OutsideLine l) :
    (∀ b ∈ extractMermaidBlocks content, b.lineStart ≤ b.lineEnd)
    ∧ extractLines (docLines segs post) = expectedBlocks segs 0 0 :=
  ⟨extractMermaidBlocks_le content, extractLines_docLines segs post hsegs hpost⟩

/-- Witness for C3's amended statement at a concrete document. -/
theorem C3_amended_witness :
    (∀ b ∈ extractMermaidBlocks "```mermaid\nA\n```", b.lineStart ≤ b.lineEnd)
    ∧ extractLines (docLines [{ pre := ["t"], content := ["A"] }] ["u"])
        = expectedBlocks [{ pre := ["t"], content := ["A"] }] 0 0 :=
  C3_amended_line_numbers "```mermaid\nA\n```"
    [{ pre := ["t"], content := ["A"] }] ["u"] (by decide) (by decide)

/-- C10: round-trip of extraction — wrapping any string S whose lines
trim to neither fence marker in an open fence line and a close fence
line and extracting yields exactly one block whose code is S. -/
theorem C10_roundtrip (S : String)
    (h : ∀ l ∈ jsSplitLines S, jsTrim l ≠ "```" ∧ jsTrim l ≠ "```mermaid") :
    (extractMermaidBlocks
        (jsJoinLines ("```mermaid" :: (jsSplitLines S ++ ["```"])))).map Block.code
      = [S] := by
  have hsplit : jsSplitLines
      (jsJoinLines ("```mermaid" :: (jsSplitLines S ++ ["```"])))
      = "```mermaid" :: (jsSplitLines S ++ ["```"]) := by
    apply jsSplitLines_jsJoinLines
    · simp
    · intro l hl
      rcases List.mem_cons.mp hl with rfl | hl
      · decide
      · rcases List.mem_append.mp hl with hl | hl
        · exact jsSplitLines_no_nl hl
        · rcases List.mem_singleton.mp hl with rfl
          decide
  unfold extractMermaidBlocks
  rw [hsplit]
  unfold extractLines
  rw [extGo_block (jsSplitLines S)
    (fun l hl => ⟨(h l hl).2, (h l hl).1⟩) [], extGo_nil]
  simp [jsJoinLines_jsSplitLines]

/-- Witness for C10 at a concrete two-line diagram. -/
theorem C10_witness :
    (extractMermaidBlocks
        (jsJoinLines ("```mermaid" ::
          (jsSplitLines "graph TD\nA-->B" ++ ["```"])))).map Block.code
      = ["graph TD\nA-->B"] :=
  C10_roundtrip "graph TD\nA-->B" (by decide)

/-- C9: a document of N well-formed opened-and-closed fences and no
malformed ones extracts to exactly N blocks with indices 0..N-1 in
document order; appending one opened-but-never-closed fence at the end
changes nothing (the unterminated block is silently dropped), so a
document that ends inside an open fence yields one fewer block than its
number of open-fence marker lines (N blocks for N+1 markers). -/
theorem C9_wellformed_extraction (segs : List Seg) (post tail : List String)
    (hsegs : ∀ s ∈ segs, SegOk s) (hpost : ∀ l ∈ post, OutsideLine l)
    (htail : ∀ l ∈ tail, ContentLine l) :
    (extractLines (docLines segs post)).length = segs.length
    ∧ (extractLines (docLines segs post)).map Block.index
        = List.range segs.length
    ∧ extractLines (docLines segs ("```mermaid" :: tail))
        = extractLines (docLines segs [])
    ∧ (extractLines (docLines segs ("```mermaid" :: tail))).length = segs.length
    ∧ openMarkerCount (docLines segs ("```mermaid" :: tail))
        = segs.length + 1 := by
  have hmain := extractLines_docLines segs post hsegs hpost
  have hempty := extractLines_docLines segs [] hsegs (by simp)
  have hunterm := extractLines_docLines_unterminated segs tail hsegs
    (fun l hl => (htail l hl).2)
  have hlen : (extractLines (docLines segs post)).length = segs.length := by
    rw [hmain, expectedBlocks_length]
  refine ⟨hlen, ?_, ?_, ?_, ?_⟩
  · rw [extractLines_map_index (docLines segs post), hlen]
  · rw [hunterm, hempty]
  · rw [hunterm, expectedBlocks_length]
  · have hz := openMarkerCount_zero tail (fun l hl => (htail l hl).1)
    have hcons : openMarkerCount ("```mermaid" :: tail) = 1 := by
      unfold openMarkerCount at hz ⊢
      rw [List.countP_cons, hz]
      simp [jsTrim_open]
    rw [openMarkerCount_docLines segs _ hsegs, hcons]

/-- Witness for C9 at a concrete two-segment document. -/
theorem C9_witness :
    (extractLines (docLines
        [{ pre := ["t"], content := ["graph TD"] }, { pre := [], content := ["x"] }]
        ["after"])).length = 2
    ∧ (extractLines (docLines
        [{ pre := ["t"], content := ["graph TD"] }, { pre := [], content := ["x"] }]
        ["after"])).map Block.index = List.range 2
    ∧ extractLines (docLines
        [{ pre := ["t"], content := ["graph TD"] }, { pre := [], content := ["x"] }]
        ("```mermaid" :: ["dangling"]))
      = extractLines (docLines
          [{ pre := ["t"], content := ["graph TD"] }, { pre := [], content := ["x"] }] [])
    ∧ (extractLines (docLines
        [{ pre := ["t"], content := ["graph TD"] }, { pre := [], content := ["x"] }]
        ("```mermaid" :: ["dangling"]))).length = 2
    ∧ openMarkerCount (docLines
        [{ pre := ["t"], content := ["graph TD"] }, { pre := [], content := ["x"] }]
        ("```mermaid" :: ["dangling"])) = 2 + 1 :=
  C9_wellformed_extraction
    [{ pre := ["t"], content := ["graph TD"] }, { pre := [], content := ["x"] }]
    ["after"] ["dangling"] (by decide) (by decide) (by decide)

/-- C7 counterexample: the input "1" has no leading alphabetic token,
yet the regex word class also matches digits, so the detected type is
the literal "1", not "unknown" as the claim requires. -/
theorem C7_counterexample :
    detectDiagramType "1" = "1" ∧ detectDiagramType "1" ≠ "unknown" := by
  decide

/-- C7 amended: type inference takes the leading run of word characters
(letters, digits or underscore — not only alphabetic characters) at the
very start of the code with no leading-whitespace tolerance; a leading
run that is exactly the sequence keyword maps to "sequence", exactly the
generic graph keyword maps to "flowchart", any other non-empty run
outside the alias table is kept literally, and only an input whose
leading word-character run is empty maps to "unknown". -/
theorem C7_amended_type_inference (code : String) :
    (code.data.takeWhile isWordChar = [] → detectDiagramType code = "unknown")
    ∧ (String.mk (code.data.takeWhile isWordChar) = "sequenceDiagram" →
        detectDiagramType code = "sequence")
    ∧ (String.mk (code.data.takeWhile isWordChar) = "graph" →
        detectDiagramType code = "flowchart")
    ∧ (∀ t, String.mk (code.data.takeWhile isWordChar) = t → t ≠ "" →
        typeMap t = none → detectDiagramType code = t) := by
  refine ⟨?_, ?_, ?_, ?_⟩
  · intro h
    simp only [detectDiagramType, h]
    rfl
  · intro h
    simp only [detectDiagramType, h]
    rw [if_neg (by decide)]
    rfl
  · intro h
    simp only [detectDiagramType, h]
    rw [if_neg (by decide)]
    rfl
  · intro t ht hne htm
    simp only [detectDiagramType, ht, htm]
    rw [if_neg hne]

/-- Witness for C7's amended statement on a sequence diagram. -/
theorem C7_amended_witness :
    detectDiagramType "sequenceDiagram\nA->>B: m" = "sequence" :=
  (C7_amended_type_inference "sequenceDiagram\nA->>B: m").2.1 (by decide)

theorem vmf_invalidCount_pos (content : String) (v : String → ValidationResult) :
    (validateMarkdownFile content v).invalidCount > 0
      ↔ ∃ b ∈ extractMermaidBlocks content, (v b.code).valid = false := by
  rw [validateMarkdownFile_spec]
  show 0 < List.countP _ _ ↔ _
  rw [List.countP_pos_iff]
  simp [Bool.not_eq_true']

theorem checkRun_invalidCount_pos (content : String)
    (v : String → ValidationResult) :
    (checkRun content v).invalidCount > 0
      ↔ ∃ b ∈ extractMermaidBlocks content, (v b.code).valid = false := by
  rw [checkRun_spec]
  show 0 < List.countP _ _ ↔ _
  rw [List.countP_pos_iff]
  simp [Bool.not_eq_true']

/-- C1 counterexample: in `check.mjs` a run whose markdown file does not
exist exits with code 1 — the same code as "at least one block invalid"
— contradicting the claim that for every such run the exit code differs
from 1. -/
theorem C1_counterexample :
    (checkMain false false false false "graph TD"
        (fun _ => { valid := true, executionTime := 0, error := none })).exitCode
      = 1 := by
  decide

/-- C1 amended: `mermaid-check.mjs` realises the claimed scheme — exit 0
when all processed documents have only valid blocks (or none), exit 1
when some processed document has an invalid block, and the distinct code
2 for operational errors (no arguments, validator setup failure, no file
matched — in particular a nonexistent markdown file path, which matches
nothing).  `check.mjs`, however, conflates every operational error
(no arguments, file not found, runtime failure) with validation failure:
all of them exit 1, and only its zero-block/valid runs exit 0. -/
theorem C1_amended_exit_codes (content : String)
    (v : String → ValidationResult) (keepTemp : Bool)
    (files : List (Option String)) :
    (extractMermaidBlocks content = [] →
      (checkMain false true keepTemp false content v).exitCode = 0)
    ∧ (extractMermaidBlocks content ≠ [] →
        (checkMain false true keepTemp false content v).exitCode
          = (if ∃ b ∈ extractMermaidBlocks content, (v b.code).valid = false
             then 1 else 0))
    ∧ (checkMain true true keepTemp false content v).exitCode = 1
    ∧ (checkMain false false keepTemp false content v).exitCode = 1
    ∧ (checkMain false true keepTemp true content v).exitCode = 1
    ∧ (mermaidCheckMain true false files v).exitCode = 2
    ∧ (mermaidCheckMain false true files v).exitCode = 2
    ∧ (files = [] → (mermaidCheckMain false false files v).exitCode = 2)
    ∧ (files ≠ [] →
        (mermaidCheckMain false false files v).exitCode
          = (if ∃ c ∈ files.filterMap id, ∃ b ∈ extractMermaidBlocks c,
                (v b.code).valid = false then 1 else 0)) := by
  refine ⟨?_, ?_, rfl, rfl, rfl, rfl, rfl, ?_, ?_⟩
  · intro h
    simp [checkMain, h]
  · intro h
    have hlen : ¬((extractMermaidBlocks content).length = 0) := by
      simpa [List.length_eq_zero] using h
    simp only [checkMain, Bool.false_eq_true, if_false, if_neg hlen]
    exact if_congr (checkRun_invalidCount_pos content v) rfl rfl
  · intro h
    subst h
    rfl
  · intro h
    have hlen : ¬(files.length = 0) := by
      simpa [List.length_eq_zero] using h
    simp only [mermaidCheckMain, Bool.false_eq_true, if_false, if_neg hlen]
    refine if_congr ?_ rfl rfl
    rw [List.any_eq_true]
    constructor
    · rintro ⟨r, hr, hp⟩
      rw [List.mem_filterMap] at hr
      obtain ⟨f, hf, hfr⟩ := hr
      rcases f with _ | c
      · exact absurd hfr (by simp)
      · simp only [Option.map_some', Option.some.injEq] at hfr
        subst hfr
        simp only [decide_eq_true_eq] at hp
        refine ⟨c, ?_, (vmf_invalidCount_pos c v).mp hp⟩
        rw [List.mem_filterMap]
        exact ⟨some c, hf, rfl⟩
    · rintro ⟨c, hc, hb⟩
      rw [List.mem_filterMap] at hc
      obtain ⟨f, hf, hfc⟩ := hc
      refine ⟨validateMarkdownFile c v, ?_, ?_⟩
      · rw [List.mem_filterMap]
        refine ⟨f, hf, ?_⟩
        simp only [id_eq] at hfc
        subst hfc
        rfl
      · simp only [decide_eq_true_eq]
        exact (vmf_invalidCount_pos c v).mpr hb

/-- Witness for C1's amended statement: a zero-block `check.mjs` run
exits 0 and a no-files `mermaid-check.mjs` run exits 2. -/
theorem C1_amended_witness :
    (checkMain false true false false "no fences"
        (fun _ => { valid := true, executionTime := 0, error := none })).exitCode = 0
    ∧ (mermaidCheckMain false false []
        (fun _ => { valid := true, executionTime := 0, error := none })).exitCode = 2 :=
  ⟨(C1_amended_exit_codes "no fences"
      (fun _ => { valid := true, executionTime := 0, error := none }) false []).1
      (by decide),
   (C1_amended_exit_codes "no fences"
      (fun _ => { valid := true, executionTime := 0, error := none }) false []).2.2.2.2.2.2.2.1
      rfl⟩

/-- C5 counterexample: a `mermaid-check.mjs` run on one document with
zero diagram blocks still initialises the validator environment
(`setupMermaidValidator` runs before the glob and before extraction), so
"no validator setup cost is incurred" fails for that script even though
the run exits 0 with a zero-block report. -/
theorem C5_counterexample :
    (validateMarkdownFile "hello"
        (fun _ => { valid := true, executionTime := 0, error := none })).totalDiagrams = 0
    ∧ (mermaidCheckMain false false [some "hello"]
        (fun _ => { valid := true, executionTime := 0, error := none })).exitCode = 0
    ∧ (mermaidCheckMain false false [some "hello"]
        (fun _ => { valid := true, executionTime := 0, error := none })).setupRuns ≠ 0 := by
  decide

/-- C5 amended: a zero-block document short-circuits `check.mjs` to exit
code 0 with no `validate.mjs` invocation (hence no validator setup) and
no report; `mermaid-check.mjs` also exits 0 and produces a
`totalDiagrams = 0` report for such a document, but its validator setup
runs unconditionally at startup, once per run. -/
theorem C5_amended_zero_blocks (content : String)
    (v : String → ValidationResult) (keepTemp : Bool)
    (h : extractMermaidBlocks content = []) :
    checkMain false true keepTemp false content v
      = { exitCode := 0, validateCalls := 0, errorReported := false,
          cleanupAttempted := false, report := none }
    ∧ (mermaidCheckMain false false [some content] v).exitCode = 0
    ∧ (mermaidCheckMain false false [some content] v).reports
        = [validateMarkdownFile content v]
    ∧ (validateMarkdownFile content v).totalDiagrams = 0
    ∧ (mermaidCheckMain false false [some content] v).setupRuns = 1 := by
  have htd : (validateMarkdownFile content v).totalDiagrams = 0 := by
    rw [validateMarkdownFile_spec, h]
    rfl
  have hinv : (validateMarkdownFile content v).invalidCount = 0 := by
    rw [validateMarkdownFile_spec, h]
    rfl
  refine ⟨by simp [checkMain, h], ?_, ?_, htd, ?_⟩
  · simp [mermaidCheckMain, List.filterMap, hinv]
  · simp [mermaidCheckMain, List.filterMap]
  · simp [mermaidCheckMain]

/-- Witness for C5's amended statement on a one-line prose document. -/
theorem C5_amended_witness :
    checkMain false true false false "hello"
        (fun _ => { valid := true, executionTime := 0, error := none })
      = { exitCode := 0, validateCalls := 0, errorReported := false,
          cleanupAttempted := false, report := none }
    ∧ (mermaidCheckMain false false [some "hello"]
        (fun _ => { valid := true, executionTime := 0, error := none })).exitCode = 0
    ∧ (mermaidCheckMain false false [some "hello"]
        (fun _ => { valid := true, executionTime := 0, error := none })).reports
        = [validateMarkdownFile "hello"
            (fun _ => { valid := true, executionTime := 0, error := none })]
    ∧ (validateMarkdownFile "hello"
        (fun _ => { valid := true, executionTime := 0, error := none })).totalDiagrams = 0
    ∧ (mermaidCheckMain false false [some "hello"]
        (fun _ => { valid := true, executionTime := 0, error := none })).setupRuns = 1 :=
  C5_amended_zero_blocks "hello"
    (fun _ => { valid := true, executionTime := 0, error := none }) false (by decide)

/-- C6: evaluation at the failing input.  In `mermaid-check.mjs` a run
whose single matched file throws mid-processing (e.g. it became
unreadable after the glob) catches and reports the error, skips the
file, and then exits 0 because the exit code only inspects successfully
processed files — the run ends with exit code 0 although an unexpected
runtime error occurred, contrary to the claim and to the script's own
exit-code documentation ("2 - Error").  `check.mjs` does satisfy the
claim: its top-level catch reports the error, attempts cleanup, and
exits 1. -/
theorem C6_failing_input_eval :
    (mermaidCheckMain false false [Option.none]
        (fun _ => { valid := true, executionTime := 0, error := none })).exitCode = 0
    ∧ (mermaidCheckMain false false [Option.none]
        (fun _ => { valid := true, executionTime := 0, error := none })).fileErrorsReported = 1
    ∧ checkMain false true false true ""
        (fun _ => { valid := true, executionTime := 0, error := none })
      = { exitCode := 1, validateCalls := 0, errorReported := true,
          cleanupAttempted := true, report := none } := by
  decide

end MermaidChecker
